import Mathlib

/-!
Verification development for the NeuroGenetic-AWJ-Optimizer repository.

The repository's orchestration script is `src/main.py`.  The core optimizer
(`control/ga_optimizer.py`, imported by `main.py` as `run_genetic_algorithm`),
the vision module (`vision/monitoring.py`, imported as
`measure_nozzle_diameter`) and the LLM verifier are not present in the source
tree, so they are modelled from the specification, as marked on each
definition.  Numeric values are embedded as rationals; the possibility of a
non-finite Depth-Model output is made explicit through the `FVal` type.
-/

/-- Modelled from the spec: a numeric value produced by the Depth Model,
which is either an ordinary finite number or a non-finite value
(the spec's "NaN/infinite" case, section 4.2 and section 7(b)). -/
inductive FVal where
  | finite (q : ℚ)
  | nonFinite
deriving DecidableEq, Repr

/-- Modelled from the spec (section 3): one optimizable dimension with its
inclusive bounds. -/
structure ParameterSpec where
  name : String
  low : ℚ
  high : ℚ
deriving DecidableEq, Repr

/-- Modelled from the spec (section 3): a Candidate plus its scalar fitness,
the raw predicted depth, and the secondary cost used for tie-breaking. -/
structure EvaluatedCandidate where
  vec : List ℚ
  fitness : ℚ
  predictedDepth : ℚ
  cost : ℚ
deriving DecidableEq, Repr

/-- Modelled from the spec (section 4.1): the Depth Model, a pure function
from a full parameter vector (candidate values plus fixed inputs) to a
predicted depth and a secondary cost; `fixedCount` is its required number of
fixed inputs. -/
structure DepthModel where
  fixedCount : Nat
  predict : List ℚ → List ℚ → FVal × FVal

/-- Modelled from the spec (section 4.2): the weights of the three fitness
terms (depth error, bound-violation penalty, secondary cost). -/
structure FitnessConfig where
  errorWeight : ℚ
  penaltyWeight : ℚ
  secondaryWeight : ℚ
deriving DecidableEq, Repr

/-- Modelled from the spec (section 7): the error taxonomy of the core —
validation errors, evaluator construction errors, and Depth-Model errors. -/
inductive GAError where
  | validation (msg : String)
  | construction (msg : String)
  | model (msg : String)
deriving DecidableEq, Repr

/-- Modelled from the spec (section 4.3): the three termination conditions
of the Population Engine. -/
inductive TermReason where
  | maxGenerations
  | stagnation
  | threshold
deriving DecidableEq, Repr

/-- Modelled from the spec (sections 4.3 and 9): the hyperparameters of the
Population Engine, exposed as named configuration. -/
structure EngineConfig where
  popSize : Nat
  maxGens : Nat
  tournamentSize : Nat
  crossoverPct : Nat
  mutationPct : Nat
  mutationScale : ℚ
  stagnationWindow : Nat
  stagnationEps : ℚ
  goodEnough : ℚ
deriving DecidableEq, Repr

/-- Modelled from the spec (section 3): the structured result of a run —
named numeric fields (one per optimizable parameter) plus metadata. -/
structure OptimizationResult where
  fields : List (String × ℚ)
  bestVec : List ℚ
  fitness : ℚ
  predictedDepth : ℚ
  generation : Nat
  reason : TermReason
  seedUsed : Nat
deriving DecidableEq, Repr

/-- Modelled from the spec (section 5 and section 9): the single sequential
seeded pseudo-random source, a 64-bit linear congruential generator state. -/
def lcgNext (s : Nat) : Nat :=
  (6364136223846793005 * s + 1442695040888963407) % 2 ^ 64

/-- Draw a natural number below `n` (for `n > 0`) and the next stream state. -/
def randBelow (n : Nat) (s : Nat) : Nat × Nat :=
  let s1 := lcgNext s
  (s1 % n, s1)

/-- Draw a rational in `[0, 1]` and the next stream state. -/
def randFrac (s : Nat) : ℚ × Nat :=
  let s1 := lcgNext s
  (((s1 % 1001 : Nat) : ℚ) / 1000, s1)

/-- Draw a rational in `[-1, 1]` (the mutation perturbation shape) and the
next stream state. -/
def randSigned (s : Nat) : ℚ × Nat :=
  let s1 := lcgNext s
  ((((s1 % 2001 : Nat) : ℚ) - 1000) / 1000, s1)

/-- List lookup with an explicit default. -/
def nthD {α : Type} : List α → Nat → α → α
  | [], _, d => d
  | a :: _, 0, _ => a
  | _ :: t, n + 1, d => nthD t n d

/-- Modelled from the spec (section 3): the bound invariant of a candidate
vector, one value per ParameterSpec, each inside its inclusive bounds. -/
def inBounds : List ParameterSpec → List ℚ → Bool
  | [], [] => true
  | sp :: sps, x :: xs =>
      (decide (sp.low ≤ x) && decide (x ≤ sp.high)) && inBounds sps xs
  | _, _ => false

/-- All ParameterSpecs are well-formed (lower bound at most upper bound). -/
def validSpecs (specs : List ParameterSpec) : Prop :=
  ∀ sp ∈ specs, sp.low ≤ sp.high

instance (specs : List ParameterSpec) : Decidable (validSpecs specs) :=
  inferInstanceAs (Decidable (∀ sp ∈ specs, sp.low ≤ sp.high))

/-- Clip a value into a dimension's inclusive bounds. -/
def clipQ (sp : ParameterSpec) (x : ℚ) : ℚ :=
  max sp.low (min sp.high x)

/-- Modelled from the spec (section 4.3 Init): a uniformly drawn value in a
dimension's bounds. -/
def randomValue (sp : ParameterSpec) (s : Nat) : ℚ × Nat :=
  let f := randFrac s
  (sp.low + f.1 * (sp.high - sp.low), f.2)

/-- Modelled from the spec (section 4.3 Init): a fresh uniform candidate. -/
def randomCandidate : List ParameterSpec → Nat → List ℚ × Nat
  | [], s => ([], s)
  | sp :: sps, s =>
      let v := randomValue sp s
      let rest := randomCandidate sps v.2
      (v.1 :: rest.1, rest.2)

/-- Modelled from the spec (section 4.3 Init): `n` fresh uniform candidates. -/
def randomPopulation (specs : List ParameterSpec) : Nat → Nat → List (List ℚ) × Nat
  | 0, s => ([], s)
  | n + 1, s =>
      let c := randomCandidate specs s
      let rest := randomPopulation specs n c.2
      (c.1 :: rest.1, rest.2)

/-- Modelled from the spec (section 4.3 Select): the fitness order used by
selection — lower fitness wins, ties broken by lower secondary cost. -/
def betterB (a b : EvaluatedCandidate) : Bool :=
  decide (a.fitness < b.fitness) ||
    (decide (a.fitness = b.fitness) && decide (a.cost < b.cost))

/-- Best member of a nonempty population, folded from an initial member
(earlier index wins remaining ties, for reproducibility). -/
def foldBest (h : EvaluatedCandidate) (t : List EvaluatedCandidate) : EvaluatedCandidate :=
  t.foldl (fun a x => if betterB x a then x else a) h

/-- One uniform sample from the population (with a default member). -/
def pick (pop : List EvaluatedCandidate) (d : EvaluatedCandidate) (s : Nat) :
    EvaluatedCandidate × Nat :=
  let r := randBelow pop.length s
  (nthD pop r.1 d, r.2)

/-- Modelled from the spec (section 4.3 Select): tournament selection —
sample `k` members uniformly and keep the best by fitness. -/
def tournament (pop : List EvaluatedCandidate) (d : EvaluatedCandidate) :
    Nat → Nat → EvaluatedCandidate × Nat
  | 0, s => (d, s)
  | k + 1, s =>
      let c := pick pop d s
      let rest := tournament pop d k c.2
      (if betterB c.1 rest.1 then c.1 else rest.1, rest.2)

/-- Modelled from the spec (section 4.3 Crossover): per-dimension arithmetic
blend of two parent vectors with mixing ratio `a`. -/
def blend (a : ℚ) : List ℚ → List ℚ → List ℚ
  | x :: xs, y :: ys => (a * x + (1 - a) * y) :: blend a xs ys
  | _, _ => []

/-- Modelled from the spec (section 4.3 Mutate): with probability
`mutationPct`/100, perturb one dimension by noise scaled to a fraction of the
dimension's range, then clip to bounds. -/
def mutDim (cfg : EngineConfig) (sp : ParameterSpec) (x : ℚ) (s : Nat) : ℚ × Nat :=
  let r := randBelow 100 s
  if r.1 < cfg.mutationPct then
    let d := randSigned r.2
    (clipQ sp (x + d.1 * (sp.high - sp.low) * cfg.mutationScale), d.2)
  else (x, r.2)

/-- Per-dimension mutation over a whole candidate vector. -/
def mutateVec (cfg : EngineConfig) : List ParameterSpec → List ℚ → Nat → List ℚ × Nat
  | [], _, s => ([], s)
  | _ :: _, [], s => ([], s)
  | sp :: sps, x :: xs, s =>
      let v := mutDim cfg sp x s
      let rest := mutateVec cfg sps xs v.2
      (v.1 :: rest.1, rest.2)

/-- Modelled from the spec (section 4.2): additive penalty for any bound
violation before clipping. -/
def boundPenalty : List ParameterSpec → List ℚ → ℚ
  | sp :: sps, x :: xs =>
      max 0 (sp.low - x) + max 0 (x - sp.high) + boundPenalty sps xs
  | _, _ => 0

/-- True when the Depth Model produced two finite values. -/
def finitePair : FVal × FVal → Bool
  | (.finite _, .finite _) => true
  | _ => false

/-- Modelled from the spec (section 4.2): the evaluator's construction check —
fails fast when any weight is non-positive or the desired depth is
non-positive. -/
def checkFitnessConfig (fcfg : FitnessConfig) (desiredDepth : ℚ) : Except GAError Unit :=
  if fcfg.errorWeight ≤ 0 ∨ fcfg.penaltyWeight ≤ 0 ∨ fcfg.secondaryWeight ≤ 0 then
    .error (.construction "fitness weights must be positive")
  else if desiredDepth ≤ 0 then
    .error (.construction "desired depth must be positive")
  else .ok ()

/-- Modelled from the spec (section 4.2): the Fitness Evaluator — squared
depth error with dominant weight, plus bound-violation penalty, plus a small
secondary-cost term; a non-finite Depth-Model output is surfaced as a fatal
model error, never converted into a fitness value. -/
def evaluate (model : DepthModel) (fcfg : FitnessConfig) (specs : List ParameterSpec)
    (fixed : List ℚ) (desiredDepth : ℚ) (vec : List ℚ) :
    Except GAError EvaluatedCandidate :=
  match model.predict vec fixed with
  | (.finite depth, .finite cost) =>
      .ok ⟨vec,
        fcfg.errorWeight * (desiredDepth - depth) ^ 2 +
          fcfg.penaltyWeight * boundPenalty specs vec +
          fcfg.secondaryWeight * cost,
        depth, cost⟩
  | _ => .error (.model "Depth Model returned a non-finite value")

/-- Evaluate a whole list of candidate vectors, failing on the first model
error. -/
def evalAll (model : DepthModel) (fcfg : FitnessConfig) (specs : List ParameterSpec)
    (fixed : List ℚ) (desiredDepth : ℚ) :
    List (List ℚ) → Except GAError (List EvaluatedCandidate)
  | [] => .ok []
  | c :: cs =>
      match evaluate model fcfg specs fixed desiredDepth c with
      | .error e => .error e
      | .ok ec =>
          match evalAll model fcfg specs fixed desiredDepth cs with
          | .error e => .error e
          | .ok rest => .ok (ec :: rest)

/-- Modelled from the spec (section 4.3): the Population Engine state — the
current generation, the tracked best-ever candidate and the generation at
which it was found, the stagnation counter, the random stream state, and the
trace of all generations produced so far. -/
structure EngineState where
  pop : List EvaluatedCandidate
  bestEver : EvaluatedCandidate
  bestGen : Nat
  gen : Nat
  sinceImprove : Nat
  rng : Nat
  history : List (List EvaluatedCandidate)
deriving DecidableEq, Repr

/-- The best candidate of the current generation (used as the elite). -/
def genBestOf (st : EngineState) : EvaluatedCandidate :=
  match st.pop with
  | [] => st.bestEver
  | h :: t => foldBest h t

/-- Modelled from the spec (section 4.3): produce one child by tournament
selection of two parents, probabilistic arithmetic crossover, and clipped
mutation. -/
def makeChild (cfg : EngineConfig) (specs : List ParameterSpec)
    (pop : List EvaluatedCandidate) (d : EvaluatedCandidate) (s : Nat) :
    List ℚ × Nat :=
  let p1 := tournament pop d cfg.tournamentSize s
  let p2 := tournament pop d cfg.tournamentSize p1.2
  let r := randBelow 100 p2.2
  let pre :=
    if r.1 < cfg.crossoverPct then
      let a := randFrac r.2
      (blend a.1 p1.1.vec p2.1.vec, a.2)
    else (p1.1.vec, r.2)
  mutateVec cfg specs pre.1 pre.2

/-- Produce `n` children. -/
def makeChildren (cfg : EngineConfig) (specs : List ParameterSpec)
    (pop : List EvaluatedCandidate) (d : EvaluatedCandidate) :
    Nat → Nat → List (List ℚ) × Nat
  | 0, s => ([], s)
  | n + 1, s =>
      let c := makeChild cfg specs pop d s
      let rest := makeChildren cfg specs pop d n c.2
      (c.1 :: rest.1, rest.2)

/-- Modelled from the spec (section 4.3): one generation advance — elitism
carries the current generation's best forward unchanged, the remaining slots
are filled with evaluated children, the best-ever candidate and the
stagnation counter are updated. -/
def engineStep (model : DepthModel) (cfg : EngineConfig) (fcfg : FitnessConfig)
    (specs : List ParameterSpec) (fixed : List ℚ) (desiredDepth : ℚ)
    (st : EngineState) : Except GAError EngineState :=
  match st.pop with
  | [] => .error (.construction "population size must be positive")
  | h :: t =>
      let genBest := foldBest h t
      let ch := makeChildren cfg specs (h :: t) h (cfg.popSize - 1) st.rng
      match evalAll model fcfg specs fixed desiredDepth ch.1 with
      | .error e => .error e
      | .ok evCh =>
          let newPop := genBest :: evCh
          let genBest2 := foldBest genBest evCh
          let bestEver2 := if betterB genBest2 st.bestEver then genBest2 else st.bestEver
          let bestGen2 := if betterB genBest2 st.bestEver then st.gen + 1 else st.bestGen
          let imp := decide (cfg.stagnationEps < st.bestEver.fitness - bestEver2.fitness)
          .ok ⟨newPop, bestEver2, bestGen2, st.gen + 1,
            if imp then 0 else st.sinceImprove + 1, ch.2,
            st.history ++ [newPop]⟩

/-- Modelled from the spec (section 4.3 Init): generation 0 — a uniformly
drawn, fully evaluated population, with the best member as the initial
best-ever candidate. -/
def initEngine (model : DepthModel) (cfg : EngineConfig) (fcfg : FitnessConfig)
    (specs : List ParameterSpec) (fixed : List ℚ) (desiredDepth : ℚ)
    (seed : Nat) : Except GAError EngineState :=
  let cands := randomPopulation specs cfg.popSize seed
  match evalAll model fcfg specs fixed desiredDepth cands.1 with
  | .error e => .error e
  | .ok pop =>
      match pop with
      | [] => .error (.construction "population size must be positive")
      | h :: t => .ok ⟨h :: t, foldBest h t, 0, 0, 0, cands.2, [h :: t]⟩

/-- Modelled from the spec (section 4.3 Terminate): advance generations until
the good-enough threshold is reached, the stagnation window is exhausted, or
the maximum number of generations (the fuel) runs out. -/
def engineLoop (model : DepthModel) (cfg : EngineConfig) (fcfg : FitnessConfig)
    (specs : List ParameterSpec) (fixed : List ℚ) (desiredDepth : ℚ) :
    Nat → EngineState → Except GAError (EngineState × TermReason)
  | 0, st => .ok (st, .maxGenerations)
  | fuel + 1, st =>
      if st.bestEver.fitness ≤ cfg.goodEnough then .ok (st, .threshold)
      else if cfg.stagnationWindow ≤ st.sinceImprove then .ok (st, .stagnation)
      else
        match engineStep model cfg fcfg specs fixed desiredDepth st with
        | .error e => .error e
        | .ok st2 => engineLoop model cfg fcfg specs fixed desiredDepth fuel st2

/-- Modelled from the spec (section 4.3): the whole engine — init then loop. -/
def runEngine (model : DepthModel) (cfg : EngineConfig) (fcfg : FitnessConfig)
    (specs : List ParameterSpec) (fixed : List ℚ) (desiredDepth : ℚ)
    (seed : Nat) : Except GAError (EngineState × TermReason) :=
  match initEngine model cfg fcfg specs fixed desiredDepth seed with
  | .error e => .error e
  | .ok st => engineLoop model cfg fcfg specs fixed desiredDepth cfg.maxGens st

/-- Modelled from the spec (section 4.4): the facade's validation — all
ranges must satisfy low < high, the desired depth must be positive, and the
static-input count must match the Depth Model's fixed-parameter count;
violations are reported as validation errors, never silently corrected. -/
def validateInputs (paramRanges : List (String × ℚ × ℚ)) (staticInputs : List ℚ)
    (desiredDepth : ℚ) (fixedCount : Nat) : Except GAError Unit :=
  if ∃ p ∈ paramRanges, p.2.2 ≤ p.2.1 then
    .error (.validation "every parameter range must satisfy low < high")
  else if desiredDepth ≤ 0 then
    .error (.validation "desired depth must be positive")
  else if staticInputs.length ≠ fixedCount then
    .error (.validation "static inputs length must match the model")
  else .ok ()

/-- Build the ParameterSpec list in the caller-specified insertion order. -/
def mkSpecs (paramRanges : List (String × ℚ × ℚ)) : List ParameterSpec :=
  paramRanges.map (fun p => ⟨p.1, p.2.1, p.2.2⟩)

/-- Modelled from the spec (section 4.4): the contractual result field name
for each optimizable-parameter name of the orchestration layer. -/
def resultFieldName (n : String) : String :=
  if n = "P (MPa)" then "pressure"
  else if n = "mf (kg/min)" then "flow_rate"
  else if n = "v (mm/min)" then "traverse_rate"
  else n

/-- Named numeric result fields, read from the best candidate's vector
positions keyed by ParameterSpec name. -/
def mkFields : List ParameterSpec → List ℚ → List (String × ℚ)
  | sp :: sps, x :: xs => (resultFieldName sp.name, x) :: mkFields sps xs
  | _, _ => []

/-- Read a named numeric field of a result by key. -/
def lookupField (r : OptimizationResult) (k : String) : Option ℚ :=
  Option.map Prod.snd (List.find? (fun p => decide (p.1 = k)) r.fields)

/-- Assemble the OptimizationResult from the terminal engine state. -/
def mkResult (specs : List ParameterSpec) (st : EngineState) (r : TermReason)
    (seedUsed : Nat) : OptimizationResult :=
  ⟨mkFields specs st.bestEver.vec, st.bestEver.vec, st.bestEver.fitness,
    st.bestEver.predictedDepth, st.bestGen, r, seedUsed⟩

/-- The seed recorded when the caller supplies none. -/
def defaultSeed : Nat := 2024

/-- Modelled from the spec (section 4.4): the Optimizer Facade
`run_genetic_algorithm` — validate, build specs in insertion order, seed the
random stream, drive the Population Engine to termination, and expand the
best-ever candidate into named result fields. -/
def run_genetic_algorithm (cfg : EngineConfig) (fcfg : FitnessConfig)
    (model : DepthModel) (paramRanges : List (String × ℚ × ℚ))
    (staticInputs : List ℚ) (desiredDepth : ℚ) (seed : Option Nat) :
    Except GAError OptimizationResult :=
  match validateInputs paramRanges staticInputs desiredDepth model.fixedCount with
  | .error e => .error e
  | .ok _ =>
      match checkFitnessConfig fcfg desiredDepth with
      | .error e => .error e
      | .ok _ =>
          let specs := mkSpecs paramRanges
          let seedUsed := seed.getD defaultSeed
          match runEngine model cfg fcfg specs staticInputs desiredDepth seedUsed with
          | .error e => .error e
          | .ok str => .ok (mkResult specs str.1 str.2 seedUsed)

/-- Modelled from the spec (section 4.1): a concrete rational stand-in for the
empirical power-law Depth Model over pressure, abrasive flow rate, traverse
rate, and the two fixed nozzle diameters. -/
def defaultPredict (vec fixed : List ℚ) : FVal × FVal :=
  let p := nthD vec 0 0
  let mf := nthD vec 1 0
  let v := nthD vec 2 0
  let df := nthD fixed 0 0
  let dOr := nthD fixed 1 0
  if v = 0 ∨ df = 0 then (FVal.nonFinite, FVal.nonFinite)
  else (FVal.finite (p * mf * dOr / (v * df)), FVal.finite (p * mf / 1000))

/-- The default Depth Model packaged with its fixed-parameter count. -/
def defaultDepthModel : DepthModel := ⟨2, defaultPredict⟩

/-- A trivial Depth Model used to exercise the engine on concrete inputs. -/
def constModel : DepthModel := ⟨2, fun _ _ => (FVal.finite 1, FVal.finite 0)⟩

/-- A Depth Model that always reports a non-finite value. -/
def nonFiniteModel : DepthModel := ⟨2, fun _ _ => (FVal.nonFinite, FVal.nonFinite)⟩

/-- A small engine configuration used to evaluate the embedding on concrete
inputs. -/
def smallCfg : EngineConfig := ⟨1, 1, 1, 50, 50, 1 / 10, 5, 0, -1⟩

/-- A small, valid fitness configuration. -/
def smallFit : FitnessConfig := ⟨1, 1, 1 / 100⟩

/-- Extract the payload of a successful computation, with a default. -/
def okOrD {α : Type} (e : Except GAError α) (d : α) : α :=
  match e with
  | .ok a => a
  | .error _ => d

/-- Whether a run succeeded. -/
def gaSucceeds {α : Type} (e : Except GAError α) : Bool :=
  match e with
  | .ok _ => true
  | .error _ => false

/-! ## The orchestration layer (src/main.py) -/

/-- The optimizable parameter names of src/main.py (lines 20-24). -/
def OPTIMIZABLE_PARAMS : List String :=
  ["P (MPa)", "mf (kg/min)", "v (mm/min)"]

/-- The static parameter names of src/main.py (lines 26-29). -/
def STATIC_PARAMS : List String := ["df (mm)", "do (mm)"]

/-- The declared safe operating ranges of src/main.py (lines 32-38). -/
def PARAM_RANGES : List (String × ℚ × ℚ) :=
  [("P (MPa)", 100, 400),
   ("mf (kg/min)", 1 / 10, 1),
   ("v (mm/min)", 100, 5000),
   ("df (mm)", 76 / 100, 16 / 10),
   ("do (mm)", 1 / 10, 3 / 10)]

/-- The vision calibration constant of src/main.py (line 41). -/
def PIXELS_TO_MM : ℚ := 1 / 100

/-- The ranges handed to the optimizer (src/main.py lines 114-116): the
declared range of each optimizable parameter, in insertion order. -/
def optimizable_params_config : List (String × ℚ × ℚ) :=
  OPTIMIZABLE_PARAMS.filterMap
    (fun n => Option.map (fun p => (n, p.2))
      (PARAM_RANGES.find? (fun p => decide (p.1 = n))))

/-- Modelled from the spec (section 6): the outcome of the external vision
collaborator's analysis of one image. -/
inductive VisionOutcome where
  | detected (innerD outerD : ℚ)
  | failed
deriving DecidableEq, Repr

/-- Modelled from the spec (section 6): `measure_nozzle_diameter`
(vision/monitoring.py, absent from the source tree) — given an image path and
a pixels-to-millimeter ratio, returns either a pair of measured diameters or
the None sentinel pair signalling detection failure; the analysis itself is an
external parameter. -/
def measure_nozzle_diameter (analyze : String → ℚ → VisionOutcome)
    (imgPath : String) (ratio : ℚ) : Option ℚ × Option ℚ :=
  match analyze imgPath ratio with
  | .detected i o => (some i, some o)
  | .failed => (none, none)

/-- The orchestration layer's handling of the vision result
(src/main.py lines 82-96): the first returned value is tested against None;
on failure the manual entry is used, itself defaulting to 0.72 mm. -/
def dfAfterVision (m : Option ℚ × Option ℚ) (manualDf : Option ℚ) : ℚ :=
  match m.1 with
  | some innerD => innerD
  | none => manualDf.getD (72 / 100)

/-- The interactive inputs of one pass of main_control_loop, with each
`float(input(...))` parse result embedded as an Option. -/
structure UserSession where
  depthInput : Option ℚ
  useVisionAnswer : String
  imgPathInput : String
  manualDfInput : Option ℚ
  doInput : Option ℚ
deriving Repr

/-- The desired depth of cut (src/main.py lines 55-59): the parsed value, or
10.0 mm on a parse failure. -/
def desiredDepthOf (u : UserSession) : ℚ := u.depthInput.getD 10

/-- The image path (src/main.py lines 71-75): the stripped user entry, or the
default test image when empty. -/
def imagePathOf (u : UserSession) : String :=
  if u.imgPathInput.trim = "" then "vision/test_images/nozzle_tip.jpg"
  else u.imgPathInput.trim

/-- The focusing-nozzle diameter df (src/main.py lines 66-96): vision
measurement when requested and successful, otherwise the manual entry,
otherwise the 0.72 mm default. -/
def dfOf (analyze : String → ℚ → VisionOutcome) (u : UserSession) : ℚ :=
  if u.useVisionAnswer.trim.toLower = "y" then
    dfAfterVision (measure_nozzle_diameter analyze (imagePathOf u) PIXELS_TO_MM)
      u.manualDfInput
  else u.manualDfInput.getD (72 / 100)

/-- The orifice diameter do (src/main.py lines 99-103): the manual entry, or
the 0.24 mm default on a parse failure. -/
def doOf (u : UserSession) : ℚ := u.doInput.getD (24 / 100)

/-- The optimization call of main_control_loop (src/main.py lines 105-123):
the packed static inputs [df, do] and the desired depth are passed to
run_genetic_algorithm exactly as computed, with no further validation. -/
def mainGARun (cfg : EngineConfig) (fcfg : FitnessConfig) (model : DepthModel)
    (analyze : String → ℚ → VisionOutcome) (u : UserSession) :
    Except GAError OptimizationResult :=
  run_genetic_algorithm cfg fcfg model optimizable_params_config
    [dfOf analyze u, doOf u] (desiredDepthOf u) none

/-- A session in which every numeric prompt fails to parse and the vision
system is declined. -/
def sessionNoInput : UserSession := ⟨none, "n", "", none, none⟩

/-! ## Helper lemmas: the random stream stays inside the bounds -/

lemma randFrac_nonneg (s : Nat) : 0 ≤ (randFrac s).1 := by
  unfold randFrac
  positivity

lemma randFrac_le_one (s : Nat) : (randFrac s).1 ≤ 1 := by
  unfold randFrac
  have h : lcgNext s % 1001 < 1001 := Nat.mod_lt _ (by norm_num)
  have h2 : ((lcgNext s % 1001 : Nat) : ℚ) ≤ 1000 := by
    exact_mod_cast Nat.le_of_lt_succ h
  rw [div_le_one (by norm_num)]
  exact h2

lemma clipQ_mem (sp : ParameterSpec) (x : ℚ) (h : sp.low ≤ sp.high) :
    sp.low ≤ clipQ sp x ∧ clipQ sp x ≤ sp.high := by
  constructor
  · exact le_max_left _ _
  · exact max_le h (min_le_left _ _)

lemma convex_mem {lo hi x y a : ℚ} (ha0 : 0 ≤ a) (ha1 : a ≤ 1)
    (hx1 : lo ≤ x) (hx2 : x ≤ hi) (hy1 : lo ≤ y) (hy2 : y ≤ hi) :
    lo ≤ a * x + (1 - a) * y ∧ a * x + (1 - a) * y ≤ hi := by
  constructor
  · nlinarith [mul_nonneg ha0 (sub_nonneg.2 hx1),
      mul_nonneg (sub_nonneg.2 ha1) (sub_nonneg.2 hy1)]
  · nlinarith [mul_nonneg ha0 (sub_nonneg.2 hx2),
      mul_nonneg (sub_nonneg.2 ha1) (sub_nonneg.2 hy2)]

lemma randomValue_mem (sp : ParameterSpec) (s : Nat) (h : sp.low ≤ sp.high) :
    sp.low ≤ (randomValue sp s).1 ∧ (randomValue sp s).1 ≤ sp.high := by
  have h0 := randFrac_nonneg s
  have h1 := randFrac_le_one s
  unfold randomValue
  dsimp only
  constructor
  · nlinarith [mul_nonneg h0 (sub_nonneg.2 h)]
  · nlinarith [mul_le_mul_of_nonneg_right h1 (sub_nonneg.2 h)]

/-! ## Helper lemmas: the bound invariant -/

lemma inBounds_cons {sp : ParameterSpec} {sps : List ParameterSpec} {x : ℚ}
    {xs : List ℚ} :
    inBounds (sp :: sps) (x :: xs) = true ↔
      (sp.low ≤ x ∧ x ≤ sp.high) ∧ inBounds sps xs = true := by
  simp [inBounds, Bool.and_eq_true, decide_eq_true_iff, and_assoc]

lemma inBounds_nil_right {sp : ParameterSpec} {sps : List ParameterSpec} :
    inBounds (sp :: sps) [] = false := rfl

lemma inBounds_nil_left {x : ℚ} {xs : List ℚ} :
    inBounds [] (x :: xs) = false := rfl

lemma inBounds_length : ∀ {sps : List ParameterSpec} {xs : List ℚ},
    inBounds sps xs = true → sps.length = xs.length := by
  intro sps
  induction sps with
  | nil =>
      intro xs h
      cases xs with
      | nil => rfl
      | cons x xs => simp [inBounds] at h
  | cons sp sps ih =>
      intro xs h
      cases xs with
      | nil => simp [inBounds] at h
      | cons x xs =>
          rcases inBounds_cons.1 h with ⟨_, h2⟩
          simpa using ih h2

lemma randomCandidate_inBounds : ∀ (sps : List ParameterSpec) (s : Nat),
    validSpecs sps → inBounds sps (randomCandidate sps s).1 = true := by
  intro sps
  induction sps with
  | nil => intro s _; rfl
  | cons sp sps ih =>
      intro s hv
      have hsp : sp.low ≤ sp.high := hv sp (List.mem_cons_self _ _)
      have htail : validSpecs sps := fun q hq => hv q (List.mem_cons_of_mem _ hq)
      simp only [randomCandidate]
      exact inBounds_cons.2 ⟨randomValue_mem sp s hsp, ih _ htail⟩

lemma randomPopulation_inBounds : ∀ (n s : Nat) (sps : List ParameterSpec),
    validSpecs sps →
    ∀ c ∈ (randomPopulation sps n s).1, inBounds sps c = true := by
  intro n
  induction n with
  | zero => intro s sps _ c hc; simp [randomPopulation] at hc
  | succ n ih =>
      intro s sps hv c hc
      simp only [randomPopulation, List.mem_cons] at hc
      rcases hc with h | h
      · rw [h]; exact randomCandidate_inBounds sps s hv
      · exact ih _ sps hv c h

lemma randomPopulation_length : ∀ (n s : Nat) (sps : List ParameterSpec),
    (randomPopulation sps n s).1.length = n := by
  intro n
  induction n with
  | zero => intro s sps; rfl
  | succ n ih => intro s sps; simp [randomPopulation, ih]

lemma blend_inBounds {a : ℚ} (ha0 : 0 ≤ a) (ha1 : a ≤ 1) :
    ∀ (sps : List ParameterSpec) (xs ys : List ℚ),
    inBounds sps xs = true → inBounds sps ys = true →
    inBounds sps (blend a xs ys) = true := by
  intro sps
  induction sps with
  | nil =>
      intro xs ys hx hy
      cases xs with
      | nil =>
          cases ys with
          | nil => rfl
          | cons y ys => simp [inBounds] at hy
      | cons x xs => simp [inBounds] at hx
  | cons sp sps ih =>
      intro xs ys hx hy
      cases xs with
      | nil => simp [inBounds] at hx
      | cons x xs =>
          cases ys with
          | nil => simp [inBounds] at hy
          | cons y ys =>
              rcases inBounds_cons.1 hx with ⟨⟨hx1, hx2⟩, hxs⟩
              rcases inBounds_cons.1 hy with ⟨⟨hy1, hy2⟩, hys⟩
              simp only [blend]
              exact inBounds_cons.2
                ⟨convex_mem ha0 ha1 hx1 hx2 hy1 hy2, ih xs ys hxs hys⟩

lemma mutDim_mem (cfg : EngineConfig) (sp : ParameterSpec) (x : ℚ) (s : Nat)
    (h1 : sp.low ≤ x) (h2 : x ≤ sp.high) :
    sp.low ≤ (mutDim cfg sp x s).1 ∧ (mutDim cfg sp x s).1 ≤ sp.high := by
  unfold mutDim
  dsimp only
  split
  · exact clipQ_mem sp _ (le_trans h1 h2)
  · exact ⟨h1, h2⟩

lemma mutateVec_inBounds (cfg : EngineConfig) :
    ∀ (sps : List ParameterSpec) (xs : List ℚ) (s : Nat),
    inBounds sps xs = true → inBounds sps (mutateVec cfg sps xs s).1 = true := by
  intro sps
  induction sps with
  | nil =>
      intro xs s hx
      cases xs with
      | nil => rfl
      | cons x xs => simp [inBounds] at hx
  | cons sp sps ih =>
      intro xs s hx
      cases xs with
      | nil => simp [inBounds] at hx
      | cons x xs =>
          rcases inBounds_cons.1 hx with ⟨⟨h1, h2⟩, hxs⟩
          simp only [mutateVec]
          exact inBounds_cons.2 ⟨mutDim_mem cfg sp x s h1 h2, ih xs _ hxs⟩

/-! ## Helper lemmas: selection stays inside the population -/

lemma nthD_mem_or {α : Type} : ∀ (l : List α) (n : Nat) (d : α),
    nthD l n d ∈ l ∨ nthD l n d = d := by
  intro l
  induction l with
  | nil => intro n d; right; cases n <;> rfl
  | cons a t ih =>
      intro n d
      cases n with
      | zero => left; exact List.mem_cons_self _ _
      | succ n =>
          rcases ih n d with h | h
          · left; exact List.mem_cons_of_mem _ h
          · right; exact h

lemma pick_mem (pop : List EvaluatedCandidate) (d : EvaluatedCandidate) (s : Nat)
    (hd : d ∈ pop) : (pick pop d s).1 ∈ pop := by
  unfold pick
  rcases nthD_mem_or pop (randBelow pop.length s).1 d with h | h
  · exact h
  · simpa [h] using hd

lemma tournament_mem (pop : List EvaluatedCandidate) (d : EvaluatedCandidate)
    (hd : d ∈ pop) : ∀ (k s : Nat), (tournament pop d k s).1 ∈ pop := by
  intro k
  induction k with
  | zero => intro s; exact hd
  | succ k ih =>
      intro s
      simp only [tournament]
      split
      · exact pick_mem pop d s hd
      · exact ih _

lemma foldBest_mem : ∀ (t : List EvaluatedCandidate) (h : EvaluatedCandidate),
    foldBest h t = h ∨ foldBest h t ∈ t := by
  intro t
  induction t with
  | nil => intro h; left; rfl
  | cons x t ih =>
      intro h
      have step : foldBest h (x :: t) = foldBest (if betterB x h then x else h) t := rfl
      rcases ih (if betterB x h then x else h) with h2 | h2
      · rw [step, h2]
        split
        · right; exact List.mem_cons_self _ _
        · left; rfl
      · right
        rw [step]
        exact List.mem_cons_of_mem _ h2

lemma foldBest_mem_cons (t : List EvaluatedCandidate) (h : EvaluatedCandidate) :
    foldBest h t ∈ h :: t := by
  rcases foldBest_mem t h with h2 | h2
  · rw [h2]; exact List.mem_cons_self _ _
  · exact List.mem_cons_of_mem _ h2

lemma betterB_le {a b : EvaluatedCandidate} (h : betterB a b = true) :
    a.fitness ≤ b.fitness := by
  simp only [betterB, Bool.or_eq_true, Bool.and_eq_true, decide_eq_true_iff] at h
  rcases h with h | ⟨h, _⟩
  · exact le_of_lt h
  · exact le_of_eq h

/-! ## Helper lemmas: the evaluator -/

lemma evaluate_ok_vec {model : DepthModel} {fcfg : FitnessConfig}
    {specs : List ParameterSpec} {fixed : List ℚ} {dd : ℚ} {c : List ℚ}
    {ec : EvaluatedCandidate}
    (h : evaluate model fcfg specs fixed dd c = .ok ec) : ec.vec = c := by
  unfold evaluate at h
  split at h
  · cases h; rfl
  · cases h

lemma evaluate_total (fcfg : FitnessConfig) (specs : List ParameterSpec)
    (dd : ℚ) {model : DepthModel} {fixed : List ℚ} {c : List ℚ}
    (h : finitePair (model.predict c fixed) = true) :
    ∃ ec, evaluate model fcfg specs fixed dd c = .ok ec := by
  unfold evaluate
  rcases hp : model.predict c fixed with ⟨d, e⟩
  cases d with
  | finite dq =>
      cases e with
      | finite eq => exact ⟨_, rfl⟩
      | nonFinite => rw [hp] at h; simp [finitePair] at h
  | nonFinite => rw [hp] at h; simp [finitePair] at h

lemma evalAll_ok_mem {model : DepthModel} {fcfg : FitnessConfig}
    {specs : List ParameterSpec} {fixed : List ℚ} {dd : ℚ} :
    ∀ {cs : List (List ℚ)} {evs : List EvaluatedCandidate},
    evalAll model fcfg specs fixed dd cs = .ok evs →
    ∀ ec ∈ evs, ec.vec ∈ cs := by
  intro cs
  induction cs with
  | nil =>
      intro evs h ec hec
      simp only [evalAll] at h
      cases h
      simp at hec
  | cons c cs ih =>
      intro evs h ec hec
      simp only [evalAll] at h
      split at h
      · cases h
      · rename_i ec0 heval
        split at h
        · cases h
        · rename_i rest hrest
          cases h
          rcases List.mem_cons.1 hec with h2 | h2
          · rw [h2]
            exact List.mem_cons.2 (Or.inl (evaluate_ok_vec heval))
          · exact List.mem_cons_of_mem _ (ih hrest ec h2)

lemma evalAll_total (fcfg : FitnessConfig) (specs : List ParameterSpec)
    (dd : ℚ) {model : DepthModel} {fixed : List ℚ} :
    ∀ {cs : List (List ℚ)},
    (∀ c ∈ cs, finitePair (model.predict c fixed) = true) →
    ∃ evs, evalAll model fcfg specs fixed dd cs = .ok evs := by
  intro cs
  induction cs with
  | nil => intro _; exact ⟨[], rfl⟩
  | cons c cs ih =>
      intro h
      rcases evaluate_total fcfg specs dd
        (h c (List.mem_cons_self _ _)) with ⟨ec, hec⟩
      rcases ih (fun x hx => h x (List.mem_cons_of_mem _ hx)) with ⟨evs, hevs⟩
      refine ⟨ec :: evs, ?_⟩
      simp only [evalAll, hec, hevs]

lemma evalAll_length {model : DepthModel} {fcfg : FitnessConfig}
    {specs : List ParameterSpec} {fixed : List ℚ} {dd : ℚ} :
    ∀ {cs : List (List ℚ)} {evs : List EvaluatedCandidate},
    evalAll model fcfg specs fixed dd cs = .ok evs →
    evs.length = cs.length := by
  intro cs
  induction cs with
  | nil =>
      intro evs h
      simp only [evalAll] at h
      cases h; rfl
  | cons c cs ih =>
      intro evs h
      simp only [evalAll] at h
      split at h
      · cases h
      · rename_i ec0 heval
        split at h
        · cases h
        · rename_i rest hrest
          cases h
          simpa using ih hrest

/-! ## Helper lemmas: children stay inside the bounds -/

lemma makeChild_inBounds (cfg : EngineConfig) (specs : List ParameterSpec)
    (pop : List EvaluatedCandidate) (d : EvaluatedCandidate) (s : Nat)
    (hpop : ∀ ec ∈ pop, inBounds specs ec.vec = true) (hd : d ∈ pop) :
    inBounds specs (makeChild cfg specs pop d s).1 = true := by
  unfold makeChild
  dsimp only
  apply mutateVec_inBounds
  split
  · apply blend_inBounds (randFrac_nonneg _) (randFrac_le_one _)
    · exact hpop _ (tournament_mem pop d hd _ _)
    · exact hpop _ (tournament_mem pop d hd _ _)
  · exact hpop _ (tournament_mem pop d hd _ _)

lemma makeChildren_inBounds (cfg : EngineConfig) (specs : List ParameterSpec)
    (pop : List EvaluatedCandidate) (d : EvaluatedCandidate)
    (hpop : ∀ ec ∈ pop, inBounds specs ec.vec = true) (hd : d ∈ pop) :
    ∀ (n s : Nat), ∀ c ∈ (makeChildren cfg specs pop d n s).1,
    inBounds specs c = true := by
  intro n
  induction n with
  | zero => intro s c hc; simp [makeChildren] at hc
  | succ n ih =>
      intro s c hc
      simp only [makeChildren, List.mem_cons] at hc
      rcases hc with h | h
      · rw [h]; exact makeChild_inBounds cfg specs pop d s hpop hd
      · exact ih _ c h

/-! ## The engine invariant -/

/-- The inductive invariant of the Population Engine: the population is
nonempty, every member of the current population, the tracked best-ever
candidate, and every member of every recorded generation satisfy the bound
constraints. -/
def StateInv (specs : List ParameterSpec) (st : EngineState) : Prop :=
  st.pop ≠ [] ∧
  (∀ ec ∈ st.pop, inBounds specs ec.vec = true) ∧
  inBounds specs st.bestEver.vec = true ∧
  ∀ p ∈ st.history, ∀ ec ∈ p, inBounds specs ec.vec = true

lemma engineStep_inv {model : DepthModel} {cfg : EngineConfig}
    {fcfg : FitnessConfig} {specs : List ParameterSpec} {fixed : List ℚ}
    {dd : ℚ} {st st2 : EngineState}
    (hstep : engineStep model cfg fcfg specs fixed dd st = .ok st2)
    (hinv : StateInv specs st) : StateInv specs st2 := by
  rcases hinv with ⟨hne, hpop, hbest, hhist⟩
  unfold engineStep at hstep
  split at hstep
  · exact absurd hstep (by simp)
  · rename_i h t hpopeq
    rw [hpopeq] at hpop
    dsimp only at hstep
    split at hstep
    · cases hstep
    · rename_i evCh hev
      have hgb : inBounds specs (foldBest h t).vec = true :=
        hpop _ (foldBest_mem_cons t h)
    -- every evaluated child's vector is a produced child, hence in bounds
      have hch : ∀ ec ∈ evCh, inBounds specs ec.vec = true := by
        intro ec hec
        have hv := evalAll_ok_mem hev ec hec
        exact makeChildren_inBounds cfg specs (h :: t) h hpop
          (List.mem_cons_self _ _) _ _ _ hv
      have hnewPop : ∀ ec ∈ foldBest h t :: evCh, inBounds specs ec.vec = true := by
        intro ec hec
        rcases List.mem_cons.1 hec with h2 | h2
        · rw [h2]; exact hgb
        · exact hch ec h2
      cases hstep
      refine ⟨by simp, hnewPop, ?_, ?_⟩
      · dsimp only
        split
        · exact hnewPop _ (foldBest_mem_cons evCh (foldBest h t))
        · exact hbest
      · intro p hp ec hec
        rcases List.mem_append.1 hp with h2 | h2
        · exact hhist p h2 ec hec
        · rcases List.mem_singleton.1 h2 with rfl
          exact hnewPop ec hec

/-- The step never fails when the Depth Model is total on in-bounds inputs. -/
lemma engineStep_total (cfg : EngineConfig) (fcfg : FitnessConfig) (dd : ℚ)
    {model : DepthModel} {specs : List ParameterSpec} {fixed : List ℚ}
    {st : EngineState}
    (hm : ∀ vec, inBounds specs vec = true →
      finitePair (model.predict vec fixed) = true)
    (hinv : StateInv specs st) :
    ∃ st2, engineStep model cfg fcfg specs fixed dd st = .ok st2 := by
  rcases hinv with ⟨hne, hpop, hbest, hhist⟩
  unfold engineStep
  rcases hp : st.pop with _ | ⟨h, t⟩
  · exact absurd hp hne
  · rw [hp] at hpop
    dsimp only
    have hch : ∀ c ∈ (makeChildren cfg specs (h :: t) h (cfg.popSize - 1) st.rng).1,
        finitePair (model.predict c fixed) = true := by
      intro c hc
      exact hm c (makeChildren_inBounds cfg specs (h :: t) h hpop
        (List.mem_cons_self _ _) _ _ _ hc)
    rcases evalAll_total fcfg specs dd hch with ⟨evs, hevs⟩
    rw [hevs]
    exact ⟨_, rfl⟩

lemma engineLoop_inv {model : DepthModel} {cfg : EngineConfig}
    {fcfg : FitnessConfig} {specs : List ParameterSpec} {fixed : List ℚ}
    {dd : ℚ} :
    ∀ {fuel : Nat} {st st2 : EngineState} {r : TermReason},
    StateInv specs st →
    engineLoop model cfg fcfg specs fixed dd fuel st = .ok (st2, r) →
    StateInv specs st2 := by
  intro fuel
  induction fuel with
  | zero =>
      intro st st2 r hinv h
      simp only [engineLoop] at h
      cases h
      exact hinv
  | succ fuel ih =>
      intro st st2 r hinv h
      simp only [engineLoop] at h
      split at h
      · cases h; exact hinv
      · split at h
        · cases h; exact hinv
        · split at h
          · cases h
          · rename_i stm hstep
            exact ih (engineStep_inv hstep hinv) h

lemma engineLoop_total (cfg : EngineConfig) (fcfg : FitnessConfig) (dd : ℚ)
    {model : DepthModel} {specs : List ParameterSpec} {fixed : List ℚ}
    (hm : ∀ vec, inBounds specs vec = true →
      finitePair (model.predict vec fixed) = true) :
    ∀ (fuel : Nat) (st : EngineState), StateInv specs st →
    ∃ st2 r, engineLoop model cfg fcfg specs fixed dd fuel st = .ok (st2, r) := by
  intro fuel
  induction fuel with
  | zero => intro st _; exact ⟨st, .maxGenerations, rfl⟩
  | succ fuel ih =>
      intro st hinv
      simp only [engineLoop]
      split
      · exact ⟨st, .threshold, rfl⟩
      · split
        · exact ⟨st, .stagnation, rfl⟩
        · rcases engineStep_total cfg fcfg dd hm hinv with ⟨st2, hst2⟩
          rw [hst2]
          exact ih st2 (engineStep_inv hst2 hinv)

lemma initEngine_inv {model : DepthModel} {cfg : EngineConfig}
    {fcfg : FitnessConfig} {specs : List ParameterSpec} {fixed : List ℚ}
    {dd : ℚ} {seed : Nat} {st : EngineState}
    (hv : validSpecs specs)
    (h : initEngine model cfg fcfg specs fixed dd seed = .ok st) :
    StateInv specs st := by
  unfold initEngine at h
  dsimp only at h
  split at h
  · cases h
  · rename_i pop hev
    split at h
    · cases h
    · rename_i h0 t0
      cases h
      have hmem : ∀ ec ∈ h0 :: t0, inBounds specs ec.vec = true := by
        intro ec hec
        have hvmem := evalAll_ok_mem hev ec hec
        exact randomPopulation_inBounds cfg.popSize seed specs hv ec.vec hvmem
      refine ⟨by simp, hmem, hmem _ (foldBest_mem_cons t0 h0), ?_⟩
      intro p hp ec hec
      rcases List.mem_singleton.1 hp with rfl
      exact hmem ec hec

lemma initEngine_total (cfg : EngineConfig) (fcfg : FitnessConfig) (dd : ℚ)
    (seed : Nat) {model : DepthModel} {specs : List ParameterSpec}
    {fixed : List ℚ}
    (hv : validSpecs specs)
    (hm : ∀ vec, inBounds specs vec = true →
      finitePair (model.predict vec fixed) = true)
    (hpos : 0 < cfg.popSize) :
    ∃ st, initEngine model cfg fcfg specs fixed dd seed = .ok st := by
  unfold initEngine
  dsimp only
  have hch : ∀ c ∈ (randomPopulation specs cfg.popSize seed).1,
      finitePair (model.predict c fixed) = true := by
    intro c hc
    exact hm c (randomPopulation_inBounds cfg.popSize seed specs hv c hc)
  rcases evalAll_total fcfg specs dd hch with ⟨evs, hevs⟩
  rw [hevs]
  have hlen : evs.length = cfg.popSize := by
    rw [evalAll_length hevs, randomPopulation_length]
  cases evs with
  | nil => rw [← hlen] at hpos; simp at hpos
  | cons h0 t0 => exact ⟨_, rfl⟩

lemma runEngine_inv {model : DepthModel} {cfg : EngineConfig}
    {fcfg : FitnessConfig} {specs : List ParameterSpec} {fixed : List ℚ}
    {dd : ℚ} {seed : Nat} {st : EngineState} {r : TermReason}
    (hv : validSpecs specs)
    (h : runEngine model cfg fcfg specs fixed dd seed = .ok (st, r)) :
    StateInv specs st := by
  unfold runEngine at h
  split at h
  · cases h
  · rename_i st0 hinit
    exact engineLoop_inv (initEngine_inv hv hinit) h

/-! ## Helper lemmas: the facade -/

lemma validateInputs_ok_validSpecs {pr : List (String × ℚ × ℚ)} {si : List ℚ}
    {dd : ℚ} {k : Nat} {u : Unit}
    (h : validateInputs pr si dd k = .ok u) : validSpecs (mkSpecs pr) := by
  unfold validateInputs at h
  split at h
  · cases h
  · rename_i hnex
    intro sp hsp
    rcases List.mem_map.1 hsp with ⟨p, hp, rfl⟩
    have : ¬ p.2.2 ≤ p.2.1 := fun hle => hnex ⟨p, hp, hle⟩
    exact le_of_lt (lt_of_not_le this)

lemma validateInputs_error {pr : List (String × ℚ × ℚ)} {si : List ℚ}
    {dd : ℚ} {k : Nat}
    (h : (∃ p ∈ pr, p.2.2 ≤ p.2.1) ∨ dd ≤ 0 ∨ si.length ≠ k) :
    ∃ msg, validateInputs pr si dd k = .error (.validation msg) := by
  unfold validateInputs
  by_cases h1 : ∃ p ∈ pr, p.2.2 ≤ p.2.1
  · rw [if_pos h1]; exact ⟨_, rfl⟩
  · rw [if_neg h1]
    by_cases h2 : dd ≤ 0
    · rw [if_pos h2]; exact ⟨_, rfl⟩
    · rw [if_neg h2]
      have h3 : si.length ≠ k := by
        rcases h with h | h | h
        · exact absurd h h1
        · exact absurd h h2
        · exact h
      rw [if_pos h3]
      exact ⟨_, rfl⟩

lemma run_ga_error_of_validate {cfg : EngineConfig} {fcfg : FitnessConfig}
    {model : DepthModel} {pr : List (String × ℚ × ℚ)} {si : List ℚ} {dd : ℚ}
    {seed : Option Nat} {e : GAError}
    (h : validateInputs pr si dd model.fixedCount = .error e) :
    run_genetic_algorithm cfg fcfg model pr si dd seed = .error e := by
  unfold run_genetic_algorithm
  rw [h]

lemma mkSpecs_names (pr : List (String × ℚ × ℚ)) :
    (mkSpecs pr).map ParameterSpec.name = pr.map Prod.fst := by
  induction pr with
  | nil => rfl
  | cons p pr ih => simp [mkSpecs, ih]

lemma mkFields_find_isSome :
    ∀ (specs : List ParameterSpec) (vec : List ℚ) (nm : String),
    specs.length = vec.length → nm ∈ specs.map ParameterSpec.name →
    (List.find? (fun p => decide (p.1 = resultFieldName nm))
      (mkFields specs vec)).isSome = true := by
  intro specs
  induction specs with
  | nil => intro vec nm _ hmem; simp at hmem
  | cons sp sps ih =>
      intro vec nm hlen hmem
      cases vec with
      | nil => simp at hlen
      | cons x xs =>
          simp only [mkFields]
          by_cases hk : resultFieldName sp.name = resultFieldName nm
          · rw [List.find?_cons_of_pos _ (by simpa using hk)]
            rfl
          · rw [List.find?_cons_of_neg _ (by simpa using hk)]
            apply ih xs nm (by simpa using hlen)
            have hmem2 : nm = sp.name ∨ ∃ a ∈ sps, a.name = nm := by simpa using hmem
            rcases hmem2 with h | ⟨a, ha, hnm⟩
            · exact absurd (by rw [h]) hk
            · exact List.mem_map.2 ⟨a, ha, hnm⟩

/-! ## Claim theorems -/

/-- C2: every call to run_genetic_algorithm in which some parameter range has
low >= high, or desired_depth <= 0, or the static-input length does not match
the Depth Model's fixed-parameter count, returns the same validation error
class (GAError.validation) before any search begins — the Except value is an
error, so no engine state is ever produced and the inputs are never silently
corrected. -/
theorem validation_rejects_invalid_inputs
    (cfg : EngineConfig) (fcfg : FitnessConfig) (model : DepthModel)
    (pr : List (String × ℚ × ℚ)) (si : List ℚ) (dd : ℚ) (seed : Option Nat)
    (h : (∃ p ∈ pr, p.2.2 ≤ p.2.1) ∨ dd ≤ 0 ∨ si.length ≠ model.fixedCount) :
    ∃ msg, run_genetic_algorithm cfg fcfg model pr si dd seed =
      .error (.validation msg) := by
  rcases validateInputs_error h with ⟨msg, hval⟩
  exact ⟨msg, run_ga_error_of_validate hval⟩

theorem validation_rejects_invalid_inputs_witness :
    ((∃ p ∈ [("P (MPa)", (400 : ℚ), (100 : ℚ))], p.2.2 ≤ p.2.1) ∨
      (10 : ℚ) ≤ 0 ∨ ([] : List ℚ).length ≠ constModel.fixedCount) ∧
    ∃ msg, run_genetic_algorithm smallCfg smallFit constModel
      [("P (MPa)", 400, 100)] [] 10 (some 1) = .error (.validation msg) :=
  ⟨Or.inl (by decide),
    validation_rejects_invalid_inputs smallCfg smallFit constModel
      [("P (MPa)", 400, 100)] [] 10 (some 1) (Or.inl (by decide))⟩

/-- C4: for every generation transition accepted by the engine, the tracked
best-ever fitness is monotonically non-increasing, and the single best
candidate of the current generation is carried unchanged into the next
generation (it is the head of the new population). -/
theorem elitism_best_fitness_monotone
    (model : DepthModel) (cfg : EngineConfig) (fcfg : FitnessConfig)
    (specs : List ParameterSpec) (fixed : List ℚ) (dd : ℚ)
    (st st2 : EngineState)
    (h : engineStep model cfg fcfg specs fixed dd st = .ok st2) :
    st2.bestEver.fitness ≤ st.bestEver.fitness ∧
      st2.pop.head? = some (genBestOf st) := by
  unfold engineStep at h
  split at h
  · cases h
  · rename_i h0 t0 hpop
    dsimp only at h
    split at h
    · cases h
    · rename_i evCh hev
      cases h
      constructor
      · dsimp only
        split
        · rename_i hb
          exact betterB_le hb
        · exact le_refl _
      · simp [genBestOf, hpop]

/-- A concrete single-member generation used to exercise the step. -/
def stepDemoState : EngineState :=
  ⟨[⟨[200, 1 / 2, 1000], 81, 1, 0⟩], ⟨[200, 1 / 2, 1000], 81, 1, 0⟩, 0, 0, 0, 7,
    [[⟨[200, 1 / 2, 1000], 81, 1, 0⟩]]⟩

/-- The state after one engine step from the demo state. -/
def stepDemoNext : EngineState :=
  okOrD (engineStep constModel smallCfg smallFit
    (mkSpecs optimizable_params_config) [1, 1] 10 stepDemoState) stepDemoState

theorem elitism_best_fitness_monotone_witness :
    stepDemoNext.bestEver.fitness ≤ stepDemoState.bestEver.fitness ∧
      stepDemoNext.pop.head? = some (genBestOf stepDemoState) :=
  elitism_best_fitness_monotone constModel smallCfg smallFit
    (mkSpecs optimizable_params_config) [1, 1] 10 stepDemoState stepDemoNext
    (by rfl)

/-- C5: run_genetic_algorithm is a pure function of its inputs plus the
explicit seed — two invocations with identical param_ranges, static_inputs,
desired_depth and the same explicit seed produce identical
OptimizationResults, and no state is shared between independent runs. -/
theorem ga_run_deterministic
    (cfg : EngineConfig) (fcfg : FitnessConfig) (model : DepthModel)
    (pr1 pr2 : List (String × ℚ × ℚ)) (si1 si2 : List ℚ) (dd1 dd2 : ℚ)
    (s1 s2 : Nat)
    (hpr : pr1 = pr2) (hsi : si1 = si2) (hdd : dd1 = dd2) (hs : s1 = s2) :
    run_genetic_algorithm cfg fcfg model pr1 si1 dd1 (some s1) =
      run_genetic_algorithm cfg fcfg model pr2 si2 dd2 (some s2) := by
  rw [hpr, hsi, hdd, hs]

theorem ga_run_deterministic_witness :
    run_genetic_algorithm smallCfg smallFit constModel
      optimizable_params_config [1, 1] 10 (some 7) =
    run_genetic_algorithm smallCfg smallFit constModel
      optimizable_params_config [1, 1] 10 (some 7) :=
  ga_run_deterministic smallCfg smallFit constModel
    optimizable_params_config optimizable_params_config [1, 1] [1, 1] 10 10 7 7
    rfl rfl rfl rfl

/-- C7: the fitness evaluator fails fast with a construction error whenever
any weight is non-positive or the desired depth is non-positive; for an
in-bounds candidate on which the Depth Model is finite, evaluation returns an
ordinary (finite) rational fitness, never NaN or infinity; and a non-finite
Depth-Model output is surfaced as a fatal model error, never converted into a
fitness value. -/
theorem fitness_evaluator_total_and_failfast :
    (∀ (fcfg : FitnessConfig) (dd : ℚ),
      fcfg.errorWeight ≤ 0 ∨ fcfg.penaltyWeight ≤ 0 ∨
        fcfg.secondaryWeight ≤ 0 ∨ dd ≤ 0 →
      ∃ msg, checkFitnessConfig fcfg dd = .error (.construction msg)) ∧
    (∀ (model : DepthModel) (fcfg : FitnessConfig)
        (specs : List ParameterSpec) (fixed : List ℚ) (dd : ℚ) (vec : List ℚ)
        (d c : ℚ),
      inBounds specs vec = true →
      model.predict vec fixed = (FVal.finite d, FVal.finite c) →
      evaluate model fcfg specs fixed dd vec =
        .ok ⟨vec, fcfg.errorWeight * (dd - d) ^ 2 +
          fcfg.penaltyWeight * boundPenalty specs vec +
          fcfg.secondaryWeight * c, d, c⟩) ∧
    (∀ (model : DepthModel) (fcfg : FitnessConfig)
        (specs : List ParameterSpec) (fixed : List ℚ) (dd : ℚ) (vec : List ℚ),
      finitePair (model.predict vec fixed) = false →
      ∃ msg, evaluate model fcfg specs fixed dd vec = .error (.model msg)) := by
  refine ⟨?_, ?_, ?_⟩
  · intro fcfg dd h
    unfold checkFitnessConfig
    by_cases h1 : fcfg.errorWeight ≤ 0 ∨ fcfg.penaltyWeight ≤ 0 ∨
        fcfg.secondaryWeight ≤ 0
    · rw [if_pos h1]; exact ⟨_, rfl⟩
    · rw [if_neg h1]
      have h2 : dd ≤ 0 := by
        rcases h with h | h | h | h
        · exact absurd (Or.inl h) h1
        · exact absurd (Or.inr (Or.inl h)) h1
        · exact absurd (Or.inr (Or.inr h)) h1
        · exact h
      rw [if_pos h2]
      exact ⟨_, rfl⟩
  · intro model fcfg specs fixed dd vec d c _ hpred
    unfold evaluate
    rw [hpred]
  · intro model fcfg specs fixed dd vec h
    unfold evaluate
    rcases hp : model.predict vec fixed with ⟨a, b⟩
    rw [hp] at h
    cases a with
    | finite aq =>
        cases b with
        | finite bq => simp [finitePair] at h
        | nonFinite => exact ⟨_, rfl⟩
    | nonFinite => exact ⟨_, rfl⟩

theorem fitness_evaluator_total_and_failfast_witness :
    (∃ msg, checkFitnessConfig ⟨0, 1, 1⟩ 10 = .error (.construction msg)) ∧
    evaluate constModel smallFit (mkSpecs optimizable_params_config) [1, 1] 10
        [200, 1 / 2, 1000] =
      .ok ⟨[200, 1 / 2, 1000],
        smallFit.errorWeight * ((10 : ℚ) - 1) ^ 2 +
          smallFit.penaltyWeight *
            boundPenalty (mkSpecs optimizable_params_config) [200, 1 / 2, 1000] +
          smallFit.secondaryWeight * 0, 1, 0⟩ ∧
    ∃ msg, evaluate nonFiniteModel smallFit (mkSpecs optimizable_params_config)
      [1, 1] 10 [200, 1 / 2, 1000] = .error (.model msg) :=
  ⟨fitness_evaluator_total_and_failfast.1 ⟨0, 1, 1⟩ 10 (Or.inl (by norm_num)),
    fitness_evaluator_total_and_failfast.2.1 constModel smallFit
      (mkSpecs optimizable_params_config) [1, 1] 10 [200, 1 / 2, 1000] 1 0
      (by with_unfolding_all rfl) rfl,
    fitness_evaluator_total_and_failfast.2.2 nonFiniteModel smallFit
      (mkSpecs optimizable_params_config) [1, 1] 10 [200, 1 / 2, 1000] rfl⟩

/-- C8: the vision measurement collaborator, given an analysis function, an
image path and a pixels-to-millimeter ratio, always returns either a pair of
measured diameters or the None sentinel pair (it is a total function, so no
exception crosses the boundary), and the orchestration layer of
src/main.py lines 82-90 detects failure solely by testing the first returned
value against None. -/
theorem vision_sentinel_contract :
    (∀ (analyze : String → ℚ → VisionOutcome) (path : String) (ratio : ℚ),
      (∃ i o, measure_nozzle_diameter analyze path ratio = (some i, some o)) ∨
        measure_nozzle_diameter analyze path ratio = (none, none)) ∧
    (∀ (analyze : String → ℚ → VisionOutcome) (path : String) (ratio : ℚ),
      (measure_nozzle_diameter analyze path ratio).1 = none ↔
        analyze path ratio = VisionOutcome.failed) ∧
    (∀ (analyze : String → ℚ → VisionOutcome) (path : String) (ratio : ℚ)
        (manualDf : Option ℚ),
      analyze path ratio = VisionOutcome.failed →
      dfAfterVision (measure_nozzle_diameter analyze path ratio) manualDf =
        manualDf.getD (72 / 100)) ∧
    (∀ (analyze : String → ℚ → VisionOutcome) (path : String) (ratio : ℚ)
        (manualDf : Option ℚ) (i o : ℚ),
      analyze path ratio = VisionOutcome.detected i o →
      dfAfterVision (measure_nozzle_diameter analyze path ratio) manualDf = i) := by
  refine ⟨?_, ?_, ?_, ?_⟩
  · intro analyze path ratio
    rcases h : analyze path ratio with ⟨i, o⟩ | _
    · exact Or.inl ⟨i, o, by simp [measure_nozzle_diameter, h]⟩
    · exact Or.inr (by simp [measure_nozzle_diameter, h])
  · intro analyze path ratio
    rcases h : analyze path ratio with ⟨i, o⟩ | _ <;>
      simp [measure_nozzle_diameter, h]
  · intro analyze path ratio manualDf h
    simp [measure_nozzle_diameter, h, dfAfterVision]
  · intro analyze path ratio manualDf i o h
    simp [measure_nozzle_diameter, h, dfAfterVision]

theorem vision_sentinel_contract_witness :
    dfAfterVision (measure_nozzle_diameter (fun _ _ => VisionOutcome.failed)
      "nozzle_tip.jpg" PIXELS_TO_MM) none = Option.getD none (72 / 100) ∧
    dfAfterVision (measure_nozzle_diameter
      (fun _ _ => VisionOutcome.detected (9 / 10) (11 / 10))
      "nozzle_tip.jpg" PIXELS_TO_MM) none = 9 / 10 :=
  ⟨vision_sentinel_contract.2.2.1 (fun _ _ => VisionOutcome.failed)
      "nozzle_tip.jpg" PIXELS_TO_MM none rfl,
    vision_sentinel_contract.2.2.2 (fun _ _ => VisionOutcome.detected (9 / 10) (11 / 10))
      "nozzle_tip.jpg" PIXELS_TO_MM none (9 / 10) (11 / 10) rfl⟩

/-- C3: for every run accepted by the engine, every evaluated candidate of
every recorded generation satisfies the bound constraints of its dimension's
ParameterSpec — candidates are evaluated exactly when they enter a
generation, so no out-of-bounds candidate is ever passed to fitness
evaluation. -/
theorem population_always_in_bounds
    (model : DepthModel) (cfg : EngineConfig) (fcfg : FitnessConfig)
    (specs : List ParameterSpec) (fixed : List ℚ) (dd : ℚ) (seed : Nat)
    (st : EngineState) (r : TermReason)
    (hv : validSpecs specs)
    (hrun : runEngine model cfg fcfg specs fixed dd seed = .ok (st, r)) :
    ∀ p ∈ st.history, ∀ ec ∈ p, inBounds specs ec.vec = true :=
  (runEngine_inv hv hrun).2.2.2

/-- A concrete full engine run on the repository's optimizable ranges. -/
def boundsDemo : EngineState × TermReason :=
  okOrD (runEngine constModel smallCfg smallFit
    (mkSpecs optimizable_params_config) [1, 1] 10 11)
    (stepDemoState, TermReason.maxGenerations)

lemma head?_mem {α : Type} {l : List α} {a : α} (h : l.head? = some a) :
    a ∈ l := by
  cases l with
  | nil => cases h
  | cons x t =>
      cases h
      exact List.mem_cons_self _ _

/-- The first recorded generation of the demo run. -/
def boundsDemoPop : List EvaluatedCandidate :=
  (boundsDemo.1.history.head?).getD []

/-- The first member of that generation. -/
def boundsDemoMember : EvaluatedCandidate :=
  (boundsDemoPop.head?).getD ⟨[], 0, 0, 0⟩

theorem population_always_in_bounds_witness :
    inBounds (mkSpecs optimizable_params_config) boundsDemoMember.vec = true :=
  population_always_in_bounds constModel smallCfg smallFit
    (mkSpecs optimizable_params_config) [1, 1] 10 11 boundsDemo.1 boundsDemo.2
    (of_decide_eq_true (by with_unfolding_all rfl))
    (by with_unfolding_all rfl)
    boundsDemoPop (head?_mem (by with_unfolding_all rfl))
    boundsDemoMember (head?_mem (by with_unfolding_all rfl))

/-- C6: for every valid input (well-formed bounds, positive population size,
and a Depth Model finite on in-bounds vectors), the Population Engine
terminates with a successful result tagged with one of exactly the three
termination reasons (max generations, stagnation, good-enough threshold);
the returned state carries the best-ever candidate, so there is no distinct
"no solution found" error state even when the desired depth is unachievable. -/
theorem engine_terminates_with_reason
    (model : DepthModel) (cfg : EngineConfig) (fcfg : FitnessConfig)
    (specs : List ParameterSpec) (fixed : List ℚ) (dd : ℚ) (seed : Nat)
    (hv : validSpecs specs)
    (hm : ∀ vec, inBounds specs vec = true →
      finitePair (model.predict vec fixed) = true)
    (hpos : 0 < cfg.popSize) :
    ∃ st r, runEngine model cfg fcfg specs fixed dd seed = .ok (st, r) ∧
      (r = TermReason.maxGenerations ∨ r = TermReason.stagnation ∨
        r = TermReason.threshold) := by
  rcases initEngine_total cfg fcfg dd seed hv hm hpos with ⟨st0, h0⟩
  rcases engineLoop_total cfg fcfg dd hm cfg.maxGens st0 (initEngine_inv hv h0)
    with ⟨st2, r, h2⟩
  refine ⟨st2, r, ?_, ?_⟩
  · unfold runEngine
    rw [h0]
    exact h2
  · cases r
    · exact Or.inl rfl
    · exact Or.inr (Or.inl rfl)
    · exact Or.inr (Or.inr rfl)

theorem engine_terminates_with_reason_witness :
    ∃ st r, runEngine constModel smallCfg smallFit
      (mkSpecs optimizable_params_config) [1, 1] 10 13 = .ok (st, r) ∧
      (r = TermReason.maxGenerations ∨ r = TermReason.stagnation ∨
        r = TermReason.threshold) :=
  engine_terminates_with_reason constModel smallCfg smallFit
    (mkSpecs optimizable_params_config) [1, 1] 10 13
    (of_decide_eq_true (by with_unfolding_all rfl))
    (fun _ _ => rfl) (by decide)

lemma isSome_map {α β : Type} (f : α → β) (o : Option α) :
    (Option.map f o).isSome = o.isSome := by
  cases o <;> rfl

/-- A placeholder result used only as the default of okOrD. -/
def dummyResult : OptimizationResult :=
  ⟨[], [], 0, 0, 0, TermReason.maxGenerations, 0⟩

/-- C1: for every successful run whose parameter ranges contain the three
contractual names, the OptimizationResult exposes the keyed fields
"pressure", "flow_rate" and "traverse_rate" — reading them by key succeeds,
because the fields are populated from the best-ever candidate's vector
positions keyed by ParameterSpec name, independent of vector ordering. -/
theorem result_exposes_contract_fields
    (cfg : EngineConfig) (fcfg : FitnessConfig) (model : DepthModel)
    (pr : List (String × ℚ × ℚ)) (si : List ℚ) (dd : ℚ) (seed : Option Nat)
    (r : OptimizationResult)
    (hrun : run_genetic_algorithm cfg fcfg model pr si dd seed = .ok r)
    (h1 : "P (MPa)" ∈ pr.map Prod.fst)
    (h2 : "mf (kg/min)" ∈ pr.map Prod.fst)
    (h3 : "v (mm/min)" ∈ pr.map Prod.fst) :
    (lookupField r "pressure").isSome = true ∧
      (lookupField r "flow_rate").isSome = true ∧
      (lookupField r "traverse_rate").isSome = true := by
  unfold run_genetic_algorithm at hrun
  split at hrun
  · cases hrun
  · rename_i u hval
    split at hrun
    · cases hrun
    · rename_i u2 hchk
      dsimp only at hrun
      split at hrun
      · cases hrun
      · rename_i str hre
        cases hrun
        have hv : validSpecs (mkSpecs pr) := validateInputs_ok_validSpecs hval
        have hinv : StateInv (mkSpecs pr) str.1 := runEngine_inv hv hre
        have hlen : (mkSpecs pr).length = str.1.bestEver.vec.length :=
          inBounds_length hinv.2.2.1
        refine ⟨?_, ?_, ?_⟩
        · have hname : "P (MPa)" ∈ (mkSpecs pr).map ParameterSpec.name := by
            rw [mkSpecs_names]; exact h1
          have hfind := mkFields_find_isSome (mkSpecs pr) str.1.bestEver.vec
            "P (MPa)" hlen hname
          simp only [lookupField, mkResult]
          rw [isSome_map]
          exact hfind
        · have hname : "mf (kg/min)" ∈ (mkSpecs pr).map ParameterSpec.name := by
            rw [mkSpecs_names]; exact h2
          have hfind := mkFields_find_isSome (mkSpecs pr) str.1.bestEver.vec
            "mf (kg/min)" hlen hname
          simp only [lookupField, mkResult]
          rw [isSome_map]
          exact hfind
        · have hname : "v (mm/min)" ∈ (mkSpecs pr).map ParameterSpec.name := by
            rw [mkSpecs_names]; exact h3
          have hfind := mkFields_find_isSome (mkSpecs pr) str.1.bestEver.vec
            "v (mm/min)" hlen hname
          simp only [lookupField, mkResult]
          rw [isSome_map]
          exact hfind

/-- A concrete successful facade run on the repository's configuration. -/
def contractDemo : OptimizationResult :=
  okOrD (run_genetic_algorithm smallCfg smallFit constModel
    optimizable_params_config [1, 1] 10 (some 3)) dummyResult

theorem result_exposes_contract_fields_witness :
    (lookupField contractDemo "pressure").isSome = true ∧
      (lookupField contractDemo "flow_rate").isSome = true ∧
      (lookupField contractDemo "traverse_rate").isSome = true :=
  result_exposes_contract_fields smallCfg smallFit constModel
    optimizable_params_config [1, 1] 10 (some 3) contractDemo
    (by with_unfolding_all rfl) (by decide) (by decide) (by decide)

/-- C9: main_control_loop passes the packed static inputs [df, do] to
run_genetic_algorithm without validating them against PARAM_RANGES: in the
all-defaults session the optimizer receives df = 0.72 mm, which lies strictly
below the declared lower bound 0.76 of "df (mm)", and the facade accepts the
run (its validation never inspects static-input values, only their count). -/
theorem orchestration_passes_out_of_range_df :
    (∀ (cfg : EngineConfig) (fcfg : FitnessConfig) (model : DepthModel)
        (analyze : String → ℚ → VisionOutcome),
      mainGARun cfg fcfg model analyze sessionNoInput =
        run_genetic_algorithm cfg fcfg model optimizable_params_config
          [72 / 100, 24 / 100] 10 none) ∧
    PARAM_RANGES.find? (fun p => decide (p.1 = "df (mm)")) =
      some ("df (mm)", 76 / 100, 16 / 10) ∧
    (72 : ℚ) / 100 < 76 / 100 ∧
    gaSucceeds (mainGARun smallCfg smallFit defaultDepthModel
      (fun _ _ => VisionOutcome.failed) sessionNoInput) = true := by
  refine ⟨?_, rfl, by norm_num, by with_unfolding_all rfl⟩
  intro cfg fcfg model analyze
  with_unfolding_all rfl

/-- C10: the orchestration layer's desired-depth fallback triggers only on a
parse failure (the parsed value is passed through unchanged, including zero
and negative values, while a failed parse yields 10.0 mm), so a non-positive
target depth reaches run_genetic_algorithm and is rejected only by the
optimizer's own validation. -/
theorem depth_fallback_only_on_parse_failure :
    (∀ (u : UserSession) (q : ℚ), u.depthInput = some q → desiredDepthOf u = q) ∧
    (∀ u : UserSession, u.depthInput = none → desiredDepthOf u = 10) ∧
    (∀ (cfg : EngineConfig) (fcfg : FitnessConfig) (model : DepthModel)
        (analyze : String → ℚ → VisionOutcome) (u : UserSession) (q : ℚ),
      u.depthInput = some q → q ≤ 0 →
      ∃ msg, mainGARun cfg fcfg model analyze u = .error (.validation msg)) := by
  refine ⟨?_, ?_, ?_⟩
  · intro u q h
    simp [desiredDepthOf, h]
  · intro u h
    simp [desiredDepthOf, h]
  · intro cfg fcfg model analyze u q hq hle
    have hdd : desiredDepthOf u = q := by simp [desiredDepthOf, hq]
    have hranges : ¬ ∃ p ∈ optimizable_params_config, p.2.2 ≤ p.2.1 :=
      of_decide_eq_true (by with_unfolding_all rfl)
    have hval : validateInputs optimizable_params_config
        [dfOf analyze u, doOf u] (desiredDepthOf u) model.fixedCount =
        .error (.validation "desired depth must be positive") := by
      unfold validateInputs
      rw [hdd, if_neg hranges, if_pos hle]
    exact ⟨_, run_ga_error_of_validate hval⟩

theorem depth_fallback_only_on_parse_failure_witness :
    desiredDepthOf ⟨some 0, "n", "", none, none⟩ = 0 ∧
    desiredDepthOf sessionNoInput = 10 ∧
    ∃ msg, mainGARun smallCfg smallFit constModel
      (fun _ _ => VisionOutcome.failed) ⟨some 0, "n", "", none, none⟩ =
      .error (.validation msg) :=
  ⟨depth_fallback_only_on_parse_failure.1 ⟨some 0, "n", "", none, none⟩ 0 rfl,
    depth_fallback_only_on_parse_failure.2.1 sessionNoInput rfl,
    depth_fallback_only_on_parse_failure.2.2 smallCfg smallFit constModel
      (fun _ _ => VisionOutcome.failed) ⟨some 0, "n", "", none, none⟩ 0 rfl
      le_rfl⟩
